import Mathlib

/-!
Verification of the gio-mirror widget fragment: a shallow embedding of the
text editor/label widget code (`src/unnamed/part_000`, `src/widget/label.go`)
and of the Android JNI shim (`src/app/internal/window/os_android.c`),
together with theorems settling the frozen claims about them.

Conventions of the embedding:
* Go `int`, `int32`, `jint`, `jsize` are modelled as `Int` (the widget code
  never exercises the 32/64-bit overflow boundary in the claims at issue).
* `fixed.Int26_6` values (26.6 fixed point) are plain `Int` in 1/64 units;
  `Floor`/`Ceil` are floor divisions by 64; Go integer division `/` on them
  truncates toward zero (`Int.tdiv`).
* Go strings holding text are modelled as `List Char` (one element per rune);
  byte output of the mask reader is `List Nat` (one element per byte).
* Code that can panic (unknown alignment, out-of-range index) returns
  `Except String`.
-/

namespace GioMirror

/-! ### fixed.Int26_6 helpers (golang.org/x/image/math/fixed) -/

/-- `fixed.I(i)`: the integer `i` as a 26.6 fixed-point value. -/
def fixedI (i : Int) : Int := i * 64

/-- `Int26_6.Floor()`: `int(x >> 6)`, an arithmetic shift, i.e. floor
division by 64. -/
def fixedFloor (x : Int) : Int := Int.fdiv x 64

/-- `Int26_6.Ceil()`: `int((x + 0x3f) >> 6)`. -/
def fixedCeil (x : Int) : Int := Int.fdiv (x + 63) 64

/-- Go integer division on signed integers truncates toward zero. -/
def goDiv (a b : Int) : Int := Int.tdiv a b

/-! ### Points and rectangles (image.Point / image.Rectangle and
widget.Point from src/widget/label.go line 30) -/

/-- An integer point; stands for `image.Point`, `widget.Point` and (with 1/64
units) `fixed.Point26_6`. -/
structure GPoint where
  x : Int
  y : Int
deriving DecidableEq, Repr

/-- A rectangle; stands for `image.Rectangle` and `fixed.Rectangle26_6`. -/
structure GRect where
  min : GPoint
  max : GPoint
deriving DecidableEq, Repr

/-- `Point.Less` from src/widget/label.go lines 146-148. -/
def GPoint.lessB (p1 p2 : GPoint) : Bool :=
  decide (p1.y < p2.y ∨ (p1.y = p2.y ∧ p1.x < p2.x))

/-- `Point.LessOrEqual` from src/widget/label.go lines 142-144. -/
def GPoint.lessOrEqualB (p1 p2 : GPoint) : Bool :=
  decide (p1.y < p2.y ∨ (p1.y = p2.y ∧ p1.x ≤ p2.x))

/-- `sortPoints` from src/unnamed/part_000 lines 544-549. -/
def sortPoints (a b : GPoint) : GPoint × GPoint :=
  if b.lessB a then (b, a) else (a, b)

/-! ### Text layout data (gioui.org/text and layout.Dimensions) -/

/-- `text.Layout`: the laid-out text of one line (runes) and one advance per
rune. -/
structure TextLayout where
  text : List Char
  advances : List Int
deriving DecidableEq, Repr

/-- `text.Line`. `width`, `ascent`, `descent` and the bounds are
`fixed.Int26_6` values. -/
structure TextLine where
  layout : TextLayout
  width : Int
  ascent : Int
  descent : Int
  bounds : GRect
deriving DecidableEq, Repr

/-- `layout.Dimensions`. -/
structure GDims where
  size : GPoint
  baseline : Int
deriving DecidableEq, Repr

/-- The zero `text.Line`, used as the default of total list indexing. -/
def emptyLine : TextLine :=
  { layout := { text := [], advances := [] }
    width := 0, ascent := 0, descent := 0
    bounds := { min := { x := 0, y := 0 }, max := { x := 0, y := 0 } } }

/-! ### Alignment and `align` (src/widget/label.go lines 232-244) -/

/-- `text.Start` (gioui.org/text: `Start Alignment = iota`). -/
def textStart : Nat := 0

/-- `text.End`. -/
def textEnd : Nat := 1

/-- `text.Middle`. -/
def textMiddle : Nat := 2

/-- `align` from src/widget/label.go lines 232-244: switch over the
alignment, `panic` (modelled as `.error`) on any other value. `width` is
fixed-point, `maxWidth` an int; the result is fixed-point. -/
def align (a : Nat) (width : Int) (maxWidth : Int) : Except String Int :=
  let mw := fixedI maxWidth
  if a = textMiddle then .ok (fixedI (fixedFloor (goDiv (mw - width) 2)))
  else if a = textEnd then .ok (fixedI (fixedFloor (mw - width)))
  else if a = textStart then .ok 0
  else .error "unknown alignment"

/-! ### maskReader (src/unnamed/part_000 lines 96-137) -/

/-- `utf8.EncodeRune` (Go standard library), byte output only: the UTF-8
encoding of the rune `r` (a Go `rune` is an `int32`; out-of-range values and
surrogates encode `utf8.RuneError` = U+FFFD).  Following Go, `r` is first
converted with `uint32(r)`. -/
def utf8EncodeRune (r : Int) : List Nat :=
  let i : Nat := (Int.emod r 4294967296).toNat
  if i ≤ 0x7F then [i % 256]
  else if i ≤ 0x7FF then
    [0xC0 ||| ((i >>> 6) % 256), 0x80 ||| (i &&& 0x3F)]
  else if 0x10FFFF < i ∨ (0xD800 ≤ i ∧ i ≤ 0xDFFF) then
    [0xE0 ||| (0xFFFD >>> 12), 0x80 ||| ((0xFFFD >>> 6) &&& 0x3F), 0x80 ||| (0xFFFD &&& 0x3F)]
  else if i ≤ 0xFFFF then
    [0xE0 ||| ((i >>> 12) % 256), 0x80 ||| ((i >>> 6) &&& 0x3F), 0x80 ||| (i &&& 0x3F)]
  else
    [0xF0 ||| ((i >>> 18) % 256), 0x80 ||| ((i >>> 12) &&& 0x3F),
     0x80 ||| ((i >>> 6) &&& 0x3F), 0x80 ||| (i &&& 0x3F)]

/-- `maskReader` (src/unnamed/part_000 lines 96-104).  The underlying
`io.RuneReader` is modelled as the list of runes it has yet to deliver
(`ReadRune` fails exactly when the list is empty); `mask` is the UTF-8
encoded mask rune, `overflow` the excess mask bytes left over after the last
`Read` call. -/
structure MaskReader where
  input : List Int
  mask : List Nat
  overflow : List Nat
deriving DecidableEq, Repr

/-- `maskReader.Reset` (lines 106-110): installs the reader and the encoded
mask rune.  (As in the source, `overflow` is left alone.) -/
def MaskReader.reset (m : MaskReader) (r : List Int) (mr : Int) : MaskReader :=
  { m with input := r, mask := utf8EncodeRune mr }

/-- The zero-value `maskReader` of a fresh `Editor`. -/
def emptyMaskReader : MaskReader := { input := [], mask := [], overflow := [] }

/-- `maskReader.Read` (lines 114-137) with a destination buffer of length
`blen`: returns the bytes written and the updated reader.  Each loop
iteration copies `min (len b) (len replacement)` bytes of the replacement
(the pending `overflow`, a literal newline for the rune `'\n'` = 10, or the
mask bytes) and keeps the rest in `overflow`; it stops when the buffer is
full or `ReadRune` fails. -/
def MaskReader.read (m : MaskReader) (blen : Nat) : List Nat × MaskReader :=
  if hb : blen = 0 then ([], m)
  else
    match (if m.overflow ≠ [] then some m.overflow
        else match m.input with
          | [] => none
          | r :: _ => some (if r = 10 then [10] else m.mask)) with
    | none => ([], m)
    | some replacement =>
      match replacement with
      | [] =>
        -- unreachable for a reader set up by `Reset`: the replacement is
        -- the nonempty overflow, `[10]`, or the (nonempty) encoded mask;
        -- Go would loop forever here
        ([], m)
      | x :: xs =>
        let nn := min blen (x :: xs).length
        let written := (x :: xs).take nn
        let input' := if m.overflow ≠ [] then m.input else m.input.tail
        let m' : MaskReader :=
          { m with input := input', overflow := (x :: xs).drop nn }
        let rest := m'.read (blen - nn)
        (written ++ rest.1, rest.2)
termination_by blen
decreasing_by
  have hx : 1 ≤ (x :: xs).length := by simp
  omega

/-- The byte stream still owed by a mask reader: the pending overflow, then
one replacement per remaining input rune. -/
def MaskReader.pending (m : MaskReader) : List Nat :=
  m.overflow ++ m.input.flatMap (fun r => if r = 10 then [10] else m.mask)

/-! ### Editor events (src/unnamed/part_000 lines 139-155) -/

/-- `EditorEvent`: `ChangeEvent`, `SubmitEvent` or `SelectEvent`.  A Go
string is a byte sequence; `SubmitEvent.Text` always holds the editor's
(valid UTF-8) contents and is kept at rune granularity, while
`SelectEvent.Text` is produced by byte-level slicing that can cut a rune in
half, so it carries the bytes themselves. -/
inductive EditorEvent where
  | change : EditorEvent
  | submit : List Char → EditorEvent
  | select : List Nat → EditorEvent
deriving DecidableEq, Repr

/-! ### The edit buffer -/

/-- Modelled from the spec: the repository's `editBuffer` type (field `rr` of
`Editor`) is not under src/; only its callers are.  Per the spec, the editor
"stores and returns the text it is given unchanged": the buffer holds the
contents and a caret position, `prepend` inserts text at the caret without
moving it, and `String` returns the whole contents. -/
structure EditBuffer where
  text : List Char
  caret : Nat
deriving DecidableEq, Repr

/-- Modelled from the spec: `editBuffer.prepend` inserts `s` at the caret,
leaving the caret where it is. -/
def EditBuffer.prepend (b : EditBuffer) (s : List Char) : EditBuffer :=
  { b with text := b.text.take b.caret ++ s ++ b.text.drop b.caret }

/-- Modelled from the spec: `editBuffer.String` returns the contents. -/
def EditBuffer.contents (b : EditBuffer) : List Char := b.text

/-! ### The Editor (src/unnamed/part_000 lines 33-94), restricted to the
fields the claims exercise -/

/-- `widget.Editor`.  Omitted fields (shaper, font, gesture recognisers,
caret blink clock, ...) play no part in the claims below. -/
structure Editor where
  Alignment : Nat := textStart
  SingleLine : Bool := false
  Submit : Bool := false
  Mask : Int := 0
  rr : EditBuffer := { text := [], caret := 0 }
  maskReader : MaskReader := emptyMaskReader
  caretXoff : Int := 0
  maxWidth : Int := 0
  viewSize : GPoint := { x := 0, y := 0 }
  valid : Bool := false
  lines : List TextLine := []
  dims : GDims := { size := { x := 0, y := 0 }, baseline := 0 }
  startDrag : GPoint := { x := 0, y := 0 }
  endDrag : GPoint := { x := 0, y := 0 }
  dragging : Bool := false
  scrollOff : GPoint := { x := 0, y := 0 }
  events : List EditorEvent := []
  prevEvents : Nat := 0
deriving DecidableEq, Repr

/-- `Editor.invalidate` (lines 749-751). -/
def Editor.invalidate (e : Editor) : Editor := { e with valid := false }

/-- `Editor.Text` (lines 611-614): returns `e.rr.String()`. -/
def Editor.Text (e : Editor) : List Char := e.rr.contents

/-- `Editor.prepend` (lines 773-780): under `SingleLine` every `"\n"` is
first replaced by `" "`; then the text goes into the buffer at the caret and
the caret x-offset is zeroed. -/
def Editor.prepend (e : Editor) (s : List Char) : Editor :=
  let s := if e.SingleLine then s.map (fun c => if c = '\n' then ' ' else c) else s
  let e := { e with rr := e.rr.prepend s }
  let e := { e with caretXoff := 0 }
  e.invalidate

/-- `Editor.SetText` (lines 616-621): fresh buffer, zero x-offset, then
`prepend`. -/
def Editor.SetText (e : Editor) (s : List Char) : Editor :=
  let e := { e with rr := { text := [], caret := 0 } }
  let e := { e with caretXoff := 0 }
  e.prepend s

/-- `Editor.Events` (lines 170-176): hands out the queued events and clears
the queue. -/
def Editor.Events (e : Editor) : List EditorEvent × Editor :=
  (e.events, { e with events := [], prevEvents := 0 })

/-! ### Scrolling (src/unnamed/part_000 lines 623-659) -/

/-- `Editor.scrollBounds` (lines 623-637). -/
def Editor.scrollBounds (e : Editor) : Except String GRect :=
  if e.SingleLine then do
    let minX ←
      match e.lines with
      | [] => pure 0
      | l0 :: _ => do
        let a ← align e.Alignment l0.width e.viewSize.x
        let m := fixedFloor a
        pure (if m > 0 then 0 else m)
    let maxX := e.dims.size.x + minX - e.viewSize.x
    pure { min := { x := minX, y := 0 }, max := { x := maxX, y := 0 } }
  else
    pure { min := { x := 0, y := 0 },
           max := { x := 0, y := e.dims.size.y - e.viewSize.y } }

/-- `Editor.scrollAbs` (lines 643-659): set the offset, then clamp each axis
first to the bound's Max, then to its Min. -/
def Editor.scrollAbs (e : Editor) (x y : Int) : Except String Editor := do
  let e := { e with scrollOff := { x := x, y := y } }
  let b ← e.scrollBounds
  let e := if e.scrollOff.x > b.max.x then
    { e with scrollOff := { e.scrollOff with x := b.max.x } } else e
  let e := if e.scrollOff.x < b.min.x then
    { e with scrollOff := { e.scrollOff with x := b.min.x } } else e
  let e := if e.scrollOff.y > b.max.y then
    { e with scrollOff := { e.scrollOff with y := b.max.y } } else e
  let e := if e.scrollOff.y < b.min.y then
    { e with scrollOff := { e.scrollOff with y := b.min.y } } else e
  pure e

/-- `Editor.scrollRel` (lines 639-641). -/
def Editor.scrollRel (e : Editor) (dx dy : Int) : Except String Editor :=
  e.scrollAbs (e.scrollOff.x + dx) (e.scrollOff.y + dy)

/-! ### Selection on mouse release (src/unnamed/part_000 lines 283-313)

`Layout.Text` is a Go string, i.e. a byte-indexed UTF-8 sequence, while
`startDrag.X`/`endDrag.X` are `caret.col` values counted in runes; the code
slices the bytes at those rune counts, so its `SelectEvent.Text` can even
cut a rune in half.  The program embedding below is byte-level with the Go
panics (`e.lines[y]` out of range, slice bounds) as `.error`; the
rune-granularity functions that follow it exist only to state the claim as
written ("slice from the start column"), which reads a column as a rune
position. -/

/-- The bytes of a Go string whose runes are given: each rune's UTF-8
encoding, concatenated. -/
def goStringBytes (s : List Char) : List Nat :=
  s.flatMap (fun c => utf8EncodeRune (Int.ofNat c.toNat))

/-- Go string slicing `s[a:b]` on the byte level; panics unless
`0 ≤ a ≤ b ≤ len(s)`.  (`s[a:]` is `s[a:len(s)]` and `s[:b]` is `s[0:b]`.) -/
def goByteSlice (s : List Nat) (a b : Int) : Except String (List Nat) :=
  if 0 ≤ a ∧ a ≤ b ∧ b ≤ (s.length : Int) then
    .ok ((s.take b.toNat).drop a.toNat)
  else .error "slice bounds out of range"

/-- `e.lines[y]` with the Go index panic. -/
def linesAt (lines : List TextLine) (y : Int) : Except String TextLine :=
  if 0 ≤ y ∧ y < (lines.length : Int) then .ok (lines.getD y.toNat emptyLine)
  else .error "index out of range"

/-- The body of the builder loop of lines 300-302, recursing on the number
of iterations left: append `e.lines[i].Layout.Text` (with the index panic)
and advance `i`. -/
def middleLinesBytesAux (lines : List TextLine) : Int → Nat → Except String (List Nat)
  | _, 0 => pure []
  | i, n + 1 => do
    let ln ← linesAt lines i
    let rest ← middleLinesBytesAux lines (i + 1) n
    pure (goStringBytes ln.layout.text ++ rest)

/-- The builder loop of lines 300-302: `for i := startY+1; i < endY; i++`
appending `e.lines[i].Layout.Text`; it runs exactly `(y2 - i).toNat`
iterations. -/
def middleLinesBytes (lines : List TextLine) (i y2 : Int) :
    Except String (List Nat) :=
  middleLinesBytesAux lines i (y2 - i).toNat

/-- Lines 294-305, "Grab the selected text", for already-sorted endpoints
`a ≤ b`: one byte slice when both endpoints share a line, otherwise the
first line's bytes from offset `a.x`, the full texts of the lines strictly
between, and the last line's bytes up to offset `b.x`.  The offsets are the
rune-counted columns used as byte indices, exactly as the Go code does. -/
def grabSelection (lines : List TextLine) (a b : GPoint) :
    Except String (List Nat) :=
  if a.y = b.y then do
    let ln ← linesAt lines a.y
    goByteSlice (goStringBytes ln.layout.text) a.x b.x
  else do
    let ln1 ← linesAt lines a.y
    let s1 ← goByteSlice (goStringBytes ln1.layout.text) a.x
      ((goStringBytes ln1.layout.text).length : Int)
    let mid ← middleLinesBytes lines (a.y + 1) b.y
    let ln2 ← linesAt lines b.y
    let s2 ← goByteSlice (goStringBytes ln2.layout.text) 0 b.x
    pure (s1 ++ mid ++ s2)

/-- The `pointer.Release && pointer.Mouse` case of `Editor.processPointer`
(src/unnamed/part_000 lines 283-313), entered after `moveCoord` has placed
the caret and `e.endDrag` has been set to it (lines 277-281): stop dragging;
abort if the drag returned to its start; otherwise sort the endpoints with
`sortPoints`, grab the selected text (byte slices at the column numbers,
panics modelled as `.error`), and append a `SelectEvent` exactly when that
text is nonempty. -/
def Editor.processRelease (e : Editor) : Except String Editor := do
  let e := { e with dragging := false }
  if e.startDrag = e.endDrag then return e
  let p := sortPoints e.startDrag e.endDrag
  let e := { e with startDrag := p.1, endDrag := p.2 }
  let selection ← grabSelection e.lines e.startDrag e.endDrag
  if selection ≠ [] then
    return { e with events := e.events ++ [EditorEvent.select selection] }
  return e

/-- The selection bytes the amended claim describes: sort the endpoints with
`sortPoints`, then grab the byte slices at the column numbers. -/
def selectEventBytesSpec (lines : List TextLine) (a b : GPoint) :
    Except String (List Nat) :=
  let p := sortPoints a b
  grabSelection lines p.1 p.2

/-- Rune-granularity slicing `s[a:b]`: how the claim as written reads
"slice at a column" (a column is a rune count).  Not the program's slicing,
which is byte-level — see `goByteSlice`. -/
def runeSliceRange (s : List Char) (a b : Int) : List Char :=
  (s.take b.toNat).drop a.toNat

/-- Rune-granularity `s[a:]`, the claim-as-written reading. -/
def runeSliceFrom (s : List Char) (a : Int) : List Char := s.drop a.toNat

/-- Rune-granularity `s[:b]`, the claim-as-written reading. -/
def runeSliceTo (s : List Char) (b : Int) : List Char := s.take b.toNat

/-- Total lookup of a laid-out line's text, used only inside the
claim-as-written description below (the program's indexing panics — see
`linesAt`). -/
def lineTextAt (lines : List TextLine) (y : Int) : List Char :=
  (lines.getD y.toNat emptyLine).layout.text

/-- The full texts of the lines strictly between line `y1` and line `y2`,
for the claim-as-written description below. -/
def middleText (lines : List TextLine) (y1 y2 : Int) : List Char :=
  (List.range (y2 - y1 - 1).toNat).flatMap (fun k => lineTextAt lines (y1 + 1 + k))

/-- The `SelectEvent` text as the claim describes it, with columns read as
rune positions: sort the two endpoints with `sortPoints` so that
start ≤ end, then concatenate the slice of the first line's laid-out text
from the start column, the full texts of the lines strictly between, and
the slice of the last line's text up to the end column (a single slice when
both endpoints share a line). -/
def selectEventTextSpec (lines : List TextLine) (a b : GPoint) : List Char :=
  let p := sortPoints a b
  if p.1.y = p.2.y then
    runeSliceRange (lineTextAt lines p.1.y) p.1.x p.2.x
  else
    runeSliceFrom (lineTextAt lines p.1.y) p.1.x
      ++ middleText lines p.1.y p.2.y
      ++ runeSliceTo (lineTextAt lines p.2.y) p.2.x

/-! ### The JNI shim (src/app/internal/window/os_android.c)

The C file is a set of wrappers over the JNI function tables reached through
`JNIEnv *` and `JavaVM *`.  The platform ABI is opaque: each pointer type is
an abstract type, and dereferencing a `JNIEnv *` / `JavaVM *` yields its
table of functions, each of which takes the pointer itself as its first
argument (the C `(*env)->F(env, ...)` pattern).  `jint` and `jsize` are
`Int`. -/

/-- The abstract pointer/handle types of the JNI ABI. -/
structure JNITypes where
  envPtr : Type
  envPtrPtr : Type
  vmPtr : Type
  vmPtrPtr : Type
  obj : Type
  cls : Type
  methodID : Type
  jvaluePtr : Type
  cstr : Type
  byteArray : Type
  bytePtr : Type
  boolPtr : Type
  charPtr : Type
  str : Type
  voidPtr : Type
  jfloat : Type

/-- The function table of a `JavaVM *` (the entries os_android.c uses).  In
`GetEnv` the C code casts `JNIEnv **` to `void **`; the cast is the identity
on the underlying pointer and is absorbed into the field's type. -/
structure JavaVMFns (T : JNITypes) where
  GetEnv : T.vmPtr → T.envPtrPtr → Int → Int
  AttachCurrentThread : T.vmPtr → T.envPtrPtr → T.voidPtr → Int
  DetachCurrentThread : T.vmPtr → Int

/-- The function table of a `JNIEnv *` (the entries os_android.c uses). -/
structure JNIEnvFns (T : JNITypes) where
  GetJavaVM : T.envPtr → T.vmPtrPtr → Int
  NewGlobalRef : T.envPtr → T.obj → T.obj
  DeleteGlobalRef : T.envPtr → T.obj → Unit
  GetObjectClass : T.envPtr → T.obj → T.cls
  GetMethodID : T.envPtr → T.cls → T.cstr → T.cstr → T.methodID
  GetStaticMethodID : T.envPtr → T.cls → T.cstr → T.cstr → T.methodID
  CallFloatMethod : T.envPtr → T.obj → T.methodID → T.jfloat
  CallIntMethod : T.envPtr → T.obj → T.methodID → Int
  CallVoidMethodA : T.envPtr → T.obj → T.methodID → T.jvaluePtr → Unit
  GetByteArrayElements : T.envPtr → T.byteArray → Option T.boolPtr → T.bytePtr
  ReleaseByteArrayElements : T.envPtr → T.byteArray → T.bytePtr → Int → Unit
  GetArrayLength : T.envPtr → T.byteArray → Int
  NewString : T.envPtr → T.charPtr → Int → T.str

/-- Pointer dereferencing: `(*env)->` and `(*vm)->`. -/
structure JNIWorld (T : JNITypes) where
  envFns : T.envPtr → JNIEnvFns T
  vmFns : T.vmPtr → JavaVMFns T

/-- `JNI_ABORT` (jni.h). -/
def JNI_ABORT : Int := 2

/-- os_android.c lines 7-9. -/
def gio_jni_GetEnv (T : JNITypes) (W : JNIWorld T)
    (vm : T.vmPtr) (env : T.envPtrPtr) (version : Int) : Int :=
  (W.vmFns vm).GetEnv vm env version

/-- os_android.c lines 11-13. -/
def gio_jni_GetJavaVM (T : JNITypes) (W : JNIWorld T)
    (env : T.envPtr) (jvm : T.vmPtrPtr) : Int :=
  (W.envFns env).GetJavaVM env jvm

/-- os_android.c lines 15-17. -/
def gio_jni_AttachCurrentThread (T : JNITypes) (W : JNIWorld T)
    (vm : T.vmPtr) (p_env : T.envPtrPtr) (thr_args : T.voidPtr) : Int :=
  (W.vmFns vm).AttachCurrentThread vm p_env thr_args

/-- os_android.c lines 19-21. -/
def gio_jni_DetachCurrentThread (T : JNITypes) (W : JNIWorld T)
    (vm : T.vmPtr) : Int :=
  (W.vmFns vm).DetachCurrentThread vm

/-- os_android.c lines 23-25. -/
def gio_jni_NewGlobalRef (T : JNITypes) (W : JNIWorld T)
    (env : T.envPtr) (obj : T.obj) : T.obj :=
  (W.envFns env).NewGlobalRef env obj

/-- os_android.c lines 27-29. -/
def gio_jni_DeleteGlobalRef (T : JNITypes) (W : JNIWorld T)
    (env : T.envPtr) (obj : T.obj) : Unit :=
  (W.envFns env).DeleteGlobalRef env obj

/-- os_android.c lines 31-33. -/
def gio_jni_GetObjectClass (T : JNITypes) (W : JNIWorld T)
    (env : T.envPtr) (obj : T.obj) : T.cls :=
  (W.envFns env).GetObjectClass env obj

/-- os_android.c lines 35-37. -/
def gio_jni_GetMethodID (T : JNITypes) (W : JNIWorld T)
    (env : T.envPtr) (clazz : T.cls) (nm sig : T.cstr) : T.methodID :=
  (W.envFns env).GetMethodID env clazz nm sig

/-- os_android.c lines 39-41. -/
def gio_jni_GetStaticMethodID (T : JNITypes) (W : JNIWorld T)
    (env : T.envPtr) (clazz : T.cls) (nm sig : T.cstr) : T.methodID :=
  (W.envFns env).GetStaticMethodID env clazz nm sig

/-- os_android.c lines 43-45. -/
def gio_jni_CallFloatMethod (T : JNITypes) (W : JNIWorld T)
    (env : T.envPtr) (obj : T.obj) (methodID : T.methodID) : T.jfloat :=
  (W.envFns env).CallFloatMethod env obj methodID

/-- os_android.c lines 47-49. -/
def gio_jni_CallIntMethod (T : JNITypes) (W : JNIWorld T)
    (env : T.envPtr) (obj : T.obj) (methodID : T.methodID) : Int :=
  (W.envFns env).CallIntMethod env obj methodID

/-- os_android.c lines 51-53: forwards to the `...A` (jvalue-array) variant. -/
def gio_jni_CallVoidMethod (T : JNITypes) (W : JNIWorld T)
    (env : T.envPtr) (obj : T.obj) (methodID : T.methodID)
    (args : T.jvaluePtr) : Unit :=
  (W.envFns env).CallVoidMethodA env obj methodID args

/-- os_android.c lines 55-57: `isCopy` is fixed to `NULL` (`none`). -/
def gio_jni_GetByteArrayElements (T : JNITypes) (W : JNIWorld T)
    (env : T.envPtr) (arr : T.byteArray) : T.bytePtr :=
  (W.envFns env).GetByteArrayElements env arr none

/-- os_android.c lines 59-61: the release mode is fixed to `JNI_ABORT`. -/
def gio_jni_ReleaseByteArrayElements (T : JNITypes) (W : JNIWorld T)
    (env : T.envPtr) (arr : T.byteArray) (bytes : T.bytePtr) : Unit :=
  (W.envFns env).ReleaseByteArrayElements env arr bytes JNI_ABORT

/-- os_android.c lines 63-65. -/
def gio_jni_GetArrayLength (T : JNITypes) (W : JNIWorld T)
    (env : T.envPtr) (arr : T.byteArray) : Int :=
  (W.envFns env).GetArrayLength env arr

/-- os_android.c lines 67-69. -/
def gio_jni_NewString (T : JNITypes) (W : JNIWorld T)
    (env : T.envPtr) (unicodeChars : T.charPtr) (len : Int) : T.str :=
  (W.envFns env).NewString env unicodeChars len

/-! ### segmentIterator (src/widget/label.go lines 32-140) -/

/-- `segmentIterator` (label.go lines 32-48).  `pos` is the rune/line
position, `off` the pixel position (`fixed.Point26_6`); `line` and `layout`
are the current line and its remaining layout. -/
structure SegmentIterator where
  Lines : List TextLine
  Clip : GRect
  Alignment : Nat
  Width : Int
  Offset : GPoint
  StartSel : GPoint
  EndSel : GPoint
  pos : GPoint := { x := 0, y := 0 }
  line : TextLine := emptyLine
  layout : TextLayout := { text := [], advances := [] }
  off : GPoint := { x := 0, y := 0 }
  x : Int := 0
  y : Int := 0
  prevDesc : Int := 0
deriving DecidableEq, Repr

/-- The selection test of `segmentIterator.inSelection` (label.go lines
137-140) at an explicit position. -/
def inSel (s e p : GPoint) : Bool := s.lessOrEqualB p && p.lessB e

/-- `segmentIterator.inSelection` (label.go lines 137-140). -/
def SegmentIterator.inSelection (l : SegmentIterator) : Bool :=
  inSel l.StartSel l.EndSel l.pos

/-- The clip-skipping loop of `Next` (label.go lines 76-86): drop leading
runes of the line's layout that end before `Clip.Min.X`, advancing `off.X`
and `pos.X`.  (`utf8.DecodeRuneInString` on the empty string reports size 0,
so the text is `tail`ed exactly when nonempty, which is `List.tail`.)
Returns the remaining text, remaining advances, new `off.X`, new `pos.X`. -/
def skipRunes (clipMinX bMaxX lineWidth : Int) :
    List Char → List Int → Int → Int → List Char × List Int × Int × Int
  | text, [], offX, posX => (text, [], offX, posX)
  | text, adv :: advs, offX, posX =>
    if fixedCeil (offX + adv + bMaxX - lineWidth) ≥ clipMinX then
      (text, adv :: advs, offX, posX)
    else
      skipRunes clipMinX bMaxX lineWidth text.tail advs (offX + adv) (posX + 1)

/-- The segment-scanning loop of `Next` (label.go lines 94-110): walk the
runes of the remaining layout until the right clip edge is passed or the
selection state flips, accumulating `endx` and advancing `pos.X`; reading
`Advances[rune]` past the advances slice is the Go index panic.  Returns
`(rune, broke, selChanged, endx, pos)`:  `rune` runes were consumed, `broke`
says the loop ended by `break` rather than by exhausting the text, and
`selChanged` whether that break was the selection flip. -/
def scanCount (selected : Bool) (s e : GPoint) (bMinX clipMaxX : Int) :
    List Char → List Int → GPoint → Int →
    Except String (Nat × Bool × Bool × Int × GPoint)
  | [], _, pos, endx => .ok (0, false, false, endx, pos)
  | _ :: text, advances, pos, endx =>
    let selChanged := selected != inSel s e pos
    if fixedFloor (endx + bMinX) > clipMaxX ∨ selChanged = true then
      .ok (0, true, selChanged, endx, pos)
    else
      match advances with
      | [] => .error "index out of range"
      | adv :: advs =>
        match scanCount selected s e bMinX clipMaxX text advs
            { pos with x := pos.x + 1 } (endx + adv) with
        | .error msg => .error msg
        | .ok (r, broke, sc, ex, p) => .ok (r + 1, broke, sc, ex, p)

/-- One yielded segment of `Next` (its first five results; the sixth is the
`ok` flag, which the embedding renders as `Option`). -/
structure NextRet where
  layout : TextLayout
  off : GPoint
  selected : Bool
  yOffs : Int
  dims : GDims
deriving DecidableEq, Repr

/-- Lines 89-132 of label.go, from `selected := l.inSelection()` to the
`return`: scan the current layout, slice out the returned segment
(`retLayout` is the whole remaining layout unless the scan broke early),
compute its dimensions, and either move to the next line (`nextLine`) or
save the rest of the line for the next call. -/
def SegmentIterator.emit (l : SegmentIterator) :
    Except String (Option NextRet × SegmentIterator) :=
  let selected := l.inSelection
  match scanCount selected l.StartSel l.EndSel l.line.bounds.min.x l.Clip.max.x
      l.layout.text l.layout.advances l.pos l.off.x with
  | .error msg => .error msg
  | .ok (r, broke, selChanged, endx, pos) =>
    let retLayout : TextLayout :=
      if broke then
        { text := l.layout.text.take r, advances := l.layout.advances.take r }
      else l.layout
    let nextLine := !selChanged
    let offf : GPoint := { x := fixedFloor l.off.x, y := fixedFloor l.off.y }
    let d := retLayout.advances.foldl (fun a b => a + b) 0
    let dims : GDims :=
      { size := { x := fixedCeil d
                  y := -(fixedCeil (l.line.ascent + l.line.descent)) }
        baseline := 0 }
    let l' :=
      if nextLine then { l with pos := { x := 0, y := l.pos.y + 1 } }
      else
        { l with
          layout := { text := l.layout.text.drop r
                      advances := l.layout.advances.drop r }
          off := { l.off with x := endx }
          pos := pos }
    .ok (some { layout := retLayout, off := offf, selected := selected,
                yOffs := fixedCeil l.line.descent, dims := dims }, l')

/-- `segmentIterator.Next` (label.go lines 52-135).  The outer
`for l.pos.Y < len(l.Lines)` loop with its `continue` (a line wholly before
the clip area) is the recursion; `ok = false` is `none`; the index panic and
the `align` panic are `.error`. -/
def SegmentIterator.next (l : SegmentIterator) :
    Except String (Option NextRet × SegmentIterator) :=
  if hY : l.pos.y < (l.Lines.length : Int) then
    if l.pos.x = 0 then
      if l.pos.y < 0 then .error "index out of range"
      else
        let line := l.Lines.getD l.pos.y.toNat emptyLine
        match align l.Alignment line.width l.Width with
        | .error msg => .error msg
        | .ok a =>
          let x := a + fixedI l.Offset.x
          let y1 := l.y + l.prevDesc + line.ascent
          let off0 : GPoint := { x := fixedI (fixedFloor x), y := fixedI (fixedCeil y1) }
          let off : GPoint := { x := off0.x, y := off0.y + fixedI l.Offset.y }
          let l1 := { l with line := line, x := x, y := off0.y,
                             prevDesc := line.descent, off := off }
          if fixedFloor (off.y + line.bounds.min.y) > l.Clip.max.y then
            .ok (none, l1)
          else if fixedCeil (off.y + line.bounds.max.y) < l.Clip.min.y then
            SegmentIterator.next
              { l1 with pos := { x := l.pos.x, y := l.pos.y + 1 } }
          else
            let sk := skipRunes l.Clip.min.x line.bounds.max.x line.width
                line.layout.text line.layout.advances off.x l.pos.x
            SegmentIterator.emit
              { l1 with layout := { text := sk.1, advances := sk.2.1 }
                        off := { off with x := sk.2.2.1 }
                        pos := { x := sk.2.2.2, y := l.pos.y } }
    else l.emit
  else .ok (none, l)
termination_by (((l.Lines.length : Int) - l.pos.y).toNat)
decreasing_by
  omega

/-- The dominant component of the termination measure for `next`: lines not
yet finished, refined by whether the next call will run the line setup
(`pos.x = 0`) and whether `pos.x` is still negative. -/
def SegmentIterator.measureA (l : SegmentIterator) : Nat :=
  3 * (((l.Lines.length : Int) - l.pos.y).toNat) +
    (if l.pos.x = 0 then 2 else if l.pos.x < 0 then 3 else 1)

/-- The minor component of the termination measure: runes left in the
iterator's current remaining layout. -/
def SegmentIterator.measureB (l : SegmentIterator) : Nat :=
  l.layout.advances.length

/-- `stopsWithin n l`: iterating `Next` from `l` reaches `ok = false` (or a
panic) in at most `n` calls. -/
def SegmentIterator.stopsWithin : Nat → SegmentIterator → Bool
  | 0, _ => false
  | n + 1, l =>
    match l.next with
    | .ok (some _, l') => SegmentIterator.stopsWithin n l'
    | _ => true

/-! ### Derived definitions used by the statements below -/

/-- The full masked byte stream that `Editor.layoutText` (src/unnamed/part_000
lines 680-706) feeds the shaper when `Mask` is set: a fresh `maskReader`
after `Reset(contents, mr)`, drained by `Read`.  A buffer of `4 *
content.length` bytes is enough for the whole stream, since each replacement
is at most 4 bytes. -/
def maskedOutput (mr : Int) (content : List Int) : List Nat :=
  ((emptyMaskReader.reset content mr).read (4 * content.length)).1

/-- A concrete editor used to instantiate the scroll-clamping theorem:
content height 10, viewport height 3, multi-line. -/
def editorScrollW : Editor :=
  { dims := { size := { x := 0, y := 10 }, baseline := 0 }
    viewSize := { x := 0, y := 3 } }

/-- Its scroll bounds. -/
def scrollBoundsW : GRect :=
  { min := { x := 0, y := 0 }, max := { x := 0, y := 7 } }

/-- `editorScrollW` after `scrollAbs(5, 20)`: both axes clamped. -/
def editorScrollWRes : Editor :=
  { editorScrollW with scrollOff := { x := 0, y := 7 } }

/-- A laid-out line whose only interesting field is its text. -/
def plainLine (s : List Char) : TextLine :=
  { emptyLine with
    layout := { text := s, advances := s.map (fun _ => 64) } }

/-- A concrete editor for the release-selection theorem: two ASCII lines,
a drag from line 1 column 3 back to line 0 column 2. -/
def edSelW : Editor :=
  { lines := [plainLine ('h' :: 'e' :: 'l' :: 'l' :: 'o' :: []),
              plainLine ('w' :: 'o' :: 'r' :: 'l' :: 'd' :: [])]
    dragging := true
    startDrag := { x := 3, y := 1 }
    endDrag := { x := 2, y := 0 } }

/-- `edSelW` after the release: endpoints sorted, one `SelectEvent` holding
the bytes of `"llo" ++ "wor"`. -/
def edSelWRes : Editor :=
  { edSelW with
    dragging := false
    startDrag := { x := 2, y := 0 }
    endDrag := { x := 3, y := 1 }
    events := [EditorEvent.select [108, 108, 111, 119, 111, 114]] }

/-- A concrete editor refuting the rune-column reading of the selection
text: one line `"ééé"` (each `'é'` is the two UTF-8 bytes 195, 169) and a
drag over its first two columns. -/
def edSelCex : Editor :=
  { lines := [plainLine ('é' :: 'é' :: 'é' :: [])]
    dragging := true
    startDrag := { x := 0, y := 0 }
    endDrag := { x := 2, y := 0 } }

/-- `edSelCex` after the release: `Text[0:2]` slices the bytes, yielding
the single rune `"é"` — not the two columns `"éé"`. -/
def edSelCexRes : Editor :=
  { edSelCex with
    dragging := false
    events := [EditorEvent.select [195, 169]] }

/-! ## Theorems -/

/-- C7: `Editor.Events` drains the event queue: it returns every queued
`EditorEvent` exactly once, in the order the events were appended (the
returned list is the queue itself), immediately afterwards the queue is
empty, and a second call with no intervening operation returns the empty
list. -/
theorem editor_events_drains_queue :
    ∀ e : Editor,
      (e.Events).1 = e.events ∧
      (e.Events).2.events = [] ∧
      (((e.Events).2).Events).1 = [] := by
  intro e
  exact ⟨rfl, rfl, rfl⟩

/-- C1 counterexample: with `SingleLine` set, `SetText "a\nb"` followed by
`Text()` returns `"a b"`, not the string that was set: the claim fails for
this editor configuration and input. -/
theorem setText_singleLine_newline_cex :
    (({ SingleLine := true } : Editor).SetText ('a' :: '\n' :: 'b' :: [])).Text ≠
      ('a' :: '\n' :: 'b' :: []) := by
  decide

/-- C1 amended: `SetText s` followed by `Text()` returns `s` with, when
`SingleLine` is set, every newline replaced by a space — in particular
exactly `s` whenever `SingleLine` is unset (`Mask` and the other
configuration fields play no part). -/
theorem setText_text_roundtrip :
    ∀ (e : Editor) (s : List Char),
      (e.SetText s).Text =
        if e.SingleLine then s.map (fun c => if c = '\n' then ' ' else c)
        else s := by
  intro e s
  simp only [Editor.SetText, Editor.prepend, Editor.Text, Editor.invalidate,
    EditBuffer.prepend, EditBuffer.contents]
  split <;> simp

/-- C2: every `gio_jni_*` function of os_android.c is a pure pass-through:
it invokes exactly the corresponding function of the dereferenced
`JNIEnv`/`JavaVM` function table on its own arguments and returns that
call's result unchanged; the only fixed choices are `NULL` (`none`) for
`isCopy` in `GetByteArrayElements` and mode `JNI_ABORT` in
`ReleaseByteArrayElements` (and `CallVoidMethod` forwards to the
jvalue-array variant `CallVoidMethodA`, the table entry matching its
argument list). -/
theorem jni_functions_pass_through :
    ∀ (T : JNITypes) (W : JNIWorld T),
      (∀ vm env version, gio_jni_GetEnv T W vm env version =
        (W.vmFns vm).GetEnv vm env version) ∧
      (∀ env jvm, gio_jni_GetJavaVM T W env jvm =
        (W.envFns env).GetJavaVM env jvm) ∧
      (∀ vm p_env thr_args, gio_jni_AttachCurrentThread T W vm p_env thr_args =
        (W.vmFns vm).AttachCurrentThread vm p_env thr_args) ∧
      (∀ vm, gio_jni_DetachCurrentThread T W vm =
        (W.vmFns vm).DetachCurrentThread vm) ∧
      (∀ env obj, gio_jni_NewGlobalRef T W env obj =
        (W.envFns env).NewGlobalRef env obj) ∧
      (∀ env obj, gio_jni_DeleteGlobalRef T W env obj =
        (W.envFns env).DeleteGlobalRef env obj) ∧
      (∀ env obj, gio_jni_GetObjectClass T W env obj =
        (W.envFns env).GetObjectClass env obj) ∧
      (∀ env clazz nm sig, gio_jni_GetMethodID T W env clazz nm sig =
        (W.envFns env).GetMethodID env clazz nm sig) ∧
      (∀ env clazz nm sig, gio_jni_GetStaticMethodID T W env clazz nm sig =
        (W.envFns env).GetStaticMethodID env clazz nm sig) ∧
      (∀ env obj methodID, gio_jni_CallFloatMethod T W env obj methodID =
        (W.envFns env).CallFloatMethod env obj methodID) ∧
      (∀ env obj methodID, gio_jni_CallIntMethod T W env obj methodID =
        (W.envFns env).CallIntMethod env obj methodID) ∧
      (∀ env obj methodID args, gio_jni_CallVoidMethod T W env obj methodID args =
        (W.envFns env).CallVoidMethodA env obj methodID args) ∧
      (∀ env arr, gio_jni_GetByteArrayElements T W env arr =
        (W.envFns env).GetByteArrayElements env arr none) ∧
      (∀ env arr bytes, gio_jni_ReleaseByteArrayElements T W env arr bytes =
        (W.envFns env).ReleaseByteArrayElements env arr bytes JNI_ABORT) ∧
      (∀ env arr, gio_jni_GetArrayLength T W env arr =
        (W.envFns env).GetArrayLength env arr) ∧
      (∀ env unicodeChars len, gio_jni_NewString T W env unicodeChars len =
        (W.envFns env).NewString env unicodeChars len) := by
  intro T W
  refine ⟨?_, ?_, ?_, ?_, ?_, ?_, ?_, ?_, ?_, ?_, ?_, ?_, ?_, ?_, ?_, ?_⟩ <;>
    (intros; rfl)

/-- C8: `align` is total exactly on the three defined alignments — `0` for
`text.Start`, the fixed-point encoding of `(mw - width).Floor()` for
`text.End`, of `((mw - width) / 2).Floor()` (Go truncating division, then
floor) for `text.Middle` — and panics for every other alignment value; and
the layout loops propagate the panic: a `segmentIterator` that is about to
lay out a line (`pos.x = 0`, `pos.y` in range) panics in `Next` whenever its
`Alignment` is outside the three. -/
theorem align_total_exactly_on_three_alignments :
    (∀ w mw, align textStart w mw = .ok 0) ∧
    (∀ w mw, align textEnd w mw = .ok (fixedI (fixedFloor (fixedI mw - w)))) ∧
    (∀ w mw, align textMiddle w mw =
      .ok (fixedI (fixedFloor (goDiv (fixedI mw - w) 2)))) ∧
    (∀ a w mw, a ≠ textStart → a ≠ textEnd → a ≠ textMiddle →
      align a w mw = .error "unknown alignment") ∧
    (∀ l : SegmentIterator, l.pos.x = 0 → 0 ≤ l.pos.y →
      l.pos.y < (l.Lines.length : Int) →
      l.Alignment ≠ textStart → l.Alignment ≠ textEnd → l.Alignment ≠ textMiddle →
      l.next = .error "unknown alignment") := by
  refine ⟨fun w mw => rfl, fun w mw => rfl, fun w mw => rfl, ?_, ?_⟩
  · intro a w mw h0 h1 h2
    simp [align, h0, h1, h2]
  · intro l hx hy0 hylen h0 h1 h2
    rw [SegmentIterator.next]
    simp [hx, hylen, Int.not_lt.mpr hy0, align, h0, h1, h2]

/-- C5 counterexample: the claim's reading of "the first line's slice from
the start column" (columns as rune positions) fails on multi-byte text.  On
the single line `"ééé"`, releasing a drag over columns 0..2 makes the code
slice the line's bytes at `[0:2]`, emitting the single rune `"é"` (bytes
195, 169), not the two-column text `"éé"` the claim describes. -/
theorem selectEvent_runeColumn_cex :
    edSelCex.processRelease = .ok edSelCexRes ∧
    edSelCexRes.events = [EditorEvent.select [195, 169]] ∧
    goStringBytes (selectEventTextSpec edSelCex.lines edSelCex.startDrag
      edSelCex.endDrag) = [195, 169, 195, 169] ∧
    edSelCexRes.events ≠ [EditorEvent.select (goStringBytes
      (selectEventTextSpec edSelCex.lines edSelCex.startDrag edSelCex.endDrag))] := by
  refine ⟨by rfl, by decide, by decide, by decide⟩

/-- C5 amended: on mouse release of a drag, a `SelectEvent` is appended
exactly when the end position differs from the start position and the
selected text is nonempty; its text is the concatenation of **byte-level**
slices of the laid-out line texts taken at the rune-counted column numbers
after sorting the endpoints with `sortPoints` (`selectEventBytesSpec`) — it
coincides with the rune-column reading only when the runes involved are
single-byte.  And `sortPoints` does order its results. -/
theorem processRelease_appends_select_event_bytes :
    ∀ (e e2 : Editor),
      e.processRelease = .ok e2 →
      (e.startDrag = e.endDrag → e2.events = e.events) ∧
      (e.startDrag ≠ e.endDrag →
        ∃ sel, selectEventBytesSpec e.lines e.startDrag e.endDrag = .ok sel ∧
          e2.events = if sel = [] then e.events
            else e.events ++ [EditorEvent.select sel]) ∧
      (∀ a b : GPoint,
        ((sortPoints a b).1).lessOrEqualB (sortPoints a b).2 = true) := by
  intro e e2 h
  unfold Editor.processRelease at h
  dsimp only at h
  refine ⟨?_, ?_, ?_⟩
  · intro hse
    simp only [hse, ite_true, if_pos] at h
    simp only [pure, Except.pure, Except.ok.injEq] at h
    rw [h.symm]
  · intro hne
    simp only [hne, ite_false, if_neg, not_false_iff] at h
    revert h
    cases hg : grabSelection e.lines (sortPoints e.startDrag e.endDrag).1
        (sortPoints e.startDrag e.endDrag).2 with
    | error msg =>
      intro h
      exact absurd h (by simp [bind, Except.bind, pure, Except.pure])
    | ok sel =>
      intro h
      simp only [bind, Except.bind, pure, Except.pure] at h
      refine ⟨sel, ?_, ?_⟩
      · unfold selectEventBytesSpec
        exact hg
      · by_cases hsel : sel = []
        · simp only [hsel, ne_eq, not_true_eq_false, ite_false, if_neg,
            pure, Except.pure, Except.ok.injEq, ite_true] at h ⊢
          rw [h.symm]
        · simp only [hsel, ne_eq, not_false_iff, ite_true, if_pos,
            pure, Except.pure, Except.ok.injEq, ite_false] at h ⊢
          rw [h.symm]
  · intro a b
    simp only [sortPoints, GPoint.lessB, GPoint.lessOrEqualB]
    split <;> rename_i hso <;> simp_all <;> omega

/-- Witness for the amended release-selection theorem: `edSelW` (drag from
line 1 column 3 back to line 0 column 2 over ASCII lines) releases into one
`SelectEvent` with the bytes of `"llowor"`, discharging the hypothesis at a
concrete input. -/
theorem processRelease_select_event_witness :
    (edSelW.startDrag = edSelW.endDrag → edSelWRes.events = edSelW.events) ∧
    (edSelW.startDrag ≠ edSelW.endDrag →
      ∃ sel, selectEventBytesSpec edSelW.lines edSelW.startDrag edSelW.endDrag =
          .ok sel ∧
        edSelWRes.events = if sel = [] then edSelW.events
          else edSelW.events ++ [EditorEvent.select sel]) ∧
    (∀ a b : GPoint,
      ((sortPoints a b).1).lessOrEqualB (sortPoints a b).2 = true) :=
  processRelease_appends_select_event_bytes edSelW edSelWRes (by rfl)

/-- `scrollBounds` does not read the scroll offset, so setting the offset
first (as `scrollAbs` does) leaves the bounds unchanged. -/
theorem scrollBounds_ignores_scrollOff (e : Editor) (p : GPoint) :
    ({ e with scrollOff := p } : Editor).scrollBounds = e.scrollBounds := rfl

/-- C4: after `scrollAbs(x, y)` the scroll offset is at least the bounds'
Min on each axis; it is at most the Max whenever Min ≤ Max on that axis; and
when the bounds are inverted (Max < Min) the offset equals Min, because the
Min clamp is applied last.  `scrollRel` is `scrollAbs` at the shifted
offset, so the same holds after every `scrollRel`. -/
theorem scrollAbs_clamps_offset :
    ∀ (e : Editor) (x y : Int) (b : GRect) (e2 : Editor),
      e.scrollBounds = .ok b → e.scrollAbs x y = .ok e2 →
      (b.min.x ≤ e2.scrollOff.x ∧ b.min.y ≤ e2.scrollOff.y) ∧
      ((b.min.x ≤ b.max.x → e2.scrollOff.x ≤ b.max.x) ∧
        (b.min.y ≤ b.max.y → e2.scrollOff.y ≤ b.max.y)) ∧
      ((b.max.x < b.min.x → e2.scrollOff.x = b.min.x) ∧
        (b.max.y < b.min.y → e2.scrollOff.y = b.min.y)) ∧
      (∀ dx dy, e.scrollRel dx dy =
        e.scrollAbs (e.scrollOff.x + dx) (e.scrollOff.y + dy)) := by
  intro e x y b e2 hb habs
  refine ⟨?_, ?_, ?_, fun dx dy => rfl⟩ <;>
  · simp only [Editor.scrollAbs, scrollBounds_ignores_scrollOff, hb,
      Except.bind] at habs
    simp only [bind, Except.bind, pure, Except.pure] at habs
    split_ifs at habs <;>
      (injection habs with habs; subst habs; simp_all <;> omega)

/-- Witness for the scroll-clamping theorem: `editorScrollW` (bounds
`(0,0)-(0,7)`) scrolled to `(5, 20)` lands on the clamped offset `(0, 7)`,
discharging both hypotheses at concrete values. -/
theorem scrollAbs_clamps_offset_witness :
    (scrollBoundsW.min.x ≤ editorScrollWRes.scrollOff.x ∧
      scrollBoundsW.min.y ≤ editorScrollWRes.scrollOff.y) ∧
    ((scrollBoundsW.min.x ≤ scrollBoundsW.max.x →
        editorScrollWRes.scrollOff.x ≤ scrollBoundsW.max.x) ∧
      (scrollBoundsW.min.y ≤ scrollBoundsW.max.y →
        editorScrollWRes.scrollOff.y ≤ scrollBoundsW.max.y)) ∧
    ((scrollBoundsW.max.x < scrollBoundsW.min.x →
        editorScrollWRes.scrollOff.x = scrollBoundsW.min.x) ∧
      (scrollBoundsW.max.y < scrollBoundsW.min.y →
        editorScrollWRes.scrollOff.y = scrollBoundsW.min.y)) ∧
    (∀ dx dy, editorScrollW.scrollRel dx dy =
      editorScrollW.scrollAbs (editorScrollW.scrollOff.x + dx)
        (editorScrollW.scrollOff.y + dy)) :=
  scrollAbs_clamps_offset editorScrollW 5 20 scrollBoundsW editorScrollWRes
    (by rfl) (by rfl)

/-- The UTF-8 encoding of a rune is between 1 and 4 bytes. -/
theorem utf8EncodeRune_length (r : Int) :
    utf8EncodeRune r ≠ [] ∧ (utf8EncodeRune r).length ≤ 4 := by
  unfold utf8EncodeRune
  dsimp only
  split_ifs <;> simp

/-- Splitting one buffer-sized chunk off a stream: the `take` shape of each
`maskReader.Read` loop iteration. -/
theorem chunk_take (rep rest : List Nat) (blen : Nat) :
    rep.take (min blen rep.length) ++
      (rep.drop (min blen rep.length) ++ rest).take (blen - min blen rep.length) =
      (rep ++ rest).take blen := by
  rcases le_total blen rep.length with h | h
  · simp [Nat.min_eq_left h, Nat.sub_eq_zero_of_le le_rfl,
      List.take_append_eq_append_take, Nat.sub_eq_zero_of_le h]
  · simp [Nat.min_eq_right h, List.take_of_length_le h,
      List.drop_of_length_le (le_refl rep.length),
      List.take_append_eq_append_take]

/-- The matching `drop` shape. -/
theorem chunk_drop (rep rest : List Nat) (blen : Nat) :
    (rep.drop (min blen rep.length) ++ rest).drop (blen - min blen rep.length) =
      (rep ++ rest).drop blen := by
  rcases le_total blen rep.length with h | h
  · simp [Nat.min_eq_left h, List.drop_append_eq_append_drop,
      Nat.sub_eq_zero_of_le h, List.drop_drop]
  · simp [Nat.min_eq_right h, List.drop_of_length_le (le_refl rep.length),
      List.drop_append_eq_append_drop, List.drop_of_length_le h]

set_option maxHeartbeats 1000000 in
/-- The I/O behaviour of `maskReader.Read`: with any nonempty mask it writes
exactly the next `blen` bytes of the pending stream into the buffer and owes
the rest, preserving the mask. -/
theorem maskRead_take_drop :
    ∀ (blen : Nat) (m : MaskReader), m.mask ≠ [] →
      (m.read blen).1 = m.pending.take blen ∧
      (m.read blen).2.pending = m.pending.drop blen ∧
      (m.read blen).2.mask = m.mask := by
  intro blen
  induction blen using Nat.strong_induction_on with
  | _ blen ih =>
    intro m hm
    rcases hb : blen with _ | bl
    · simp [MaskReader.read]
    rcases m with ⟨input, mask, overflow⟩
    simp only at hm
    rcases overflow with _ | ⟨o, os⟩
    · rcases input with _ | ⟨r, rs⟩
      · simp [MaskReader.read, MaskReader.pending]
      · by_cases hr : r = 10
        · rw [MaskReader.read]
          simp only [hr, Nat.succ_ne_zero, dite_false, ne_eq,
            not_true_eq_false, ite_true, ite_false, if_neg, List.tail_cons]
          have hlt : bl + 1 - (bl + 1) ⊓ ([10] : List Nat).length < blen := by
            rw [hb]; simp
          have ihh := ih _ hlt
            { input := rs, mask := mask,
              overflow := ([10] : List Nat).drop ((bl + 1) ⊓ ([10] : List Nat).length) } hm
          rw [ihh.1, ihh.2.1]
          refine ⟨?_, ?_, ihh.2.2⟩
          · have h := chunk_take [10]
              (rs.flatMap (fun x => if x = 10 then [10] else mask)) (bl + 1)
            simp only [MaskReader.pending, List.flatMap_cons, List.nil_append,
              ite_true, if_pos rfl]
            simpa using h
          · have h := chunk_drop [10]
              (rs.flatMap (fun x => if x = 10 then [10] else mask)) (bl + 1)
            simp only [MaskReader.pending, List.flatMap_cons, List.nil_append,
              ite_true, if_pos rfl]
            simpa using h
        · rcases hmask : mask with _ | ⟨mk, mks⟩
          · exact absurd hmask hm
          subst hmask
          rw [MaskReader.read]
          simp only [hr, Nat.succ_ne_zero, dite_false, ne_eq,
            not_true_eq_false, ite_true, ite_false, if_neg, List.tail_cons]
          have hlt : bl + 1 - (bl + 1) ⊓ (mk :: mks).length < blen := by
            rw [hb]; simp only [List.length_cons]; omega
          have ihh := ih _ hlt
            { input := rs, mask := mk :: mks,
              overflow := (mk :: mks).drop ((bl + 1) ⊓ (mk :: mks).length) } (by simp)
          rw [ihh.1, ihh.2.1]
          refine ⟨?_, ?_, ihh.2.2⟩
          · have h := chunk_take (mk :: mks)
              (rs.flatMap (fun x => if x = 10 then [10] else mk :: mks)) (bl + 1)
            simp only [MaskReader.pending, List.flatMap_cons, List.nil_append,
              hr, ite_false, if_neg hr]
            simpa using h
          · have h := chunk_drop (mk :: mks)
              (rs.flatMap (fun x => if x = 10 then [10] else mk :: mks)) (bl + 1)
            simp only [MaskReader.pending, List.flatMap_cons, List.nil_append,
              hr, ite_false, if_neg hr]
            simpa using h
    · rw [MaskReader.read]
      simp only [Nat.succ_ne_zero, dite_false, ne_eq, List.cons_ne_nil,
        not_false_iff, ite_true]
      have hlt : bl + 1 - (bl + 1) ⊓ (o :: os).length < blen := by
        rw [hb]; simp only [List.length_cons]; omega
      have ihh := ih _ hlt
        { input := input, mask := mask,
          overflow := (o :: os).drop ((bl + 1) ⊓ (o :: os).length) } hm
      rw [ihh.1, ihh.2.1]
      refine ⟨?_, ?_, ihh.2.2⟩
      · have h := chunk_take (o :: os)
          (input.flatMap (fun x => if x = 10 then [10] else mask)) (bl + 1)
        simp only [MaskReader.pending]
        simpa using h
      · have h := chunk_drop (o :: os)
          (input.flatMap (fun x => if x = 10 then [10] else mask)) (bl + 1)
        simp only [MaskReader.pending]
        simpa using h

/-- The stream a fresh reader owes fits in a 4-bytes-per-rune buffer. -/
theorem reset_pending_length_le (mr : Int) (content : List Int) :
    ((emptyMaskReader.reset content mr).pending).length ≤ 4 * content.length := by
  simp only [MaskReader.pending, MaskReader.reset, emptyMaskReader,
    List.nil_append]
  induction content with
  | nil => simp
  | cons r rs ih =>
    simp only [List.flatMap_cons, List.length_append, List.length_cons]
    have h4 := (utf8EncodeRune_length mr).2
    have : (if r = 10 then ([10] : List Nat) else utf8EncodeRune mr).length ≤ 4 := by
      split <;> simp_all
    omega

/-- What the editor's masked display stream is: every `'\n'` passes through,
every other rune becomes the UTF-8 encoding of the mask rune. -/
theorem maskedOutput_eq_flatMap (mr : Int) (content : List Int) :
    maskedOutput mr content =
      content.flatMap (fun r => if r = 10 then [10] else utf8EncodeRune mr) := by
  have hne := (utf8EncodeRune_length mr).1
  have h := (maskRead_take_drop (4 * content.length)
    (emptyMaskReader.reset content mr) (by simpa [MaskReader.reset] using hne)).1
  rw [maskedOutput, h,
    List.take_of_length_le (reset_pending_length_le mr content)]
  simp [MaskReader.pending, MaskReader.reset, emptyMaskReader]

/-- Replacements depend only on whether the rune is a newline. -/
theorem flatMap_newline_congr (mask : List Nat) :
    ∀ l1 l2 : List Int,
      l1.map (fun r => decide (r = 10)) = l2.map (fun r => decide (r = 10)) →
      l1.flatMap (fun r => if r = 10 then [10] else mask) =
        l2.flatMap (fun r => if r = 10 then [10] else mask) := by
  intro l1
  induction l1 with
  | nil => intro l2 h; cases l2 <;> simp_all
  | cons a l ihl =>
    intro l2 h
    cases l2 with
    | nil => simp at h
    | cons b bs =>
      simp only [List.map_cons, List.cons.injEq] at h
      simp only [List.flatMap_cons]
      have hd : (if a = 10 then ([10] : List Nat) else mask) =
          (if b = 10 then ([10] : List Nat) else mask) := by
        by_cases ha : a = 10 <;> by_cases hb2 : b = 10 <;> simp_all
      rw [hd, ihl bs h.2]

/-- C6: the masked display is noninterfering with rune identities.  After
`Reset` with mask rune `mr`, draining `maskReader.Read` yields exactly the
UTF-8 encoding of `mr` for every non-newline rune and a literal `'\n'` byte
for every newline; hence two contents with the same rune count and newlines
at the same rune positions produce byte-for-byte identical masked output. -/
theorem maskReader_output_uniform :
    ∀ (mr : Int) (i1 i2 : List Int),
      maskedOutput mr i1 =
        i1.flatMap (fun r => if r = 10 then [10] else utf8EncodeRune mr) ∧
      (i1.map (fun r => decide (r = 10)) = i2.map (fun r => decide (r = 10)) →
        maskedOutput mr i1 = maskedOutput mr i2) := by
  intro mr i1 i2
  refine ⟨maskedOutput_eq_flatMap mr i1, fun h => ?_⟩
  rw [maskedOutput_eq_flatMap mr i1, maskedOutput_eq_flatMap mr i2]
  exact flatMap_newline_congr (utf8EncodeRune mr) i1 i2 h

/-- The clip-skipping loop only moves `pos.X` forward. -/
theorem skipRunes_posX_le (cmin bmax w : Int) :
    ∀ (advs : List Int) (text : List Char) (offX posX : Int),
      posX ≤ (skipRunes cmin bmax w text advs offX posX).2.2.2 := by
  intro advs
  induction advs with
  | nil => intro text offX posX; simp [skipRunes]
  | cons adv advs ih =>
    intro text offX posX
    simp only [skipRunes]
    split
    · simp
    · exact le_trans (by omega) (ih text.tail (offX + adv) (posX + 1))

/-- Shape facts about the scanning loop: the final position advances by
exactly the consumed rune count on the same line, at most `advances` many
runes are consumed, only a `break` can flip `selChanged`, and a
selection-flip break cannot happen on the very first rune when `selected`
was just computed at the loop's start position. -/
theorem scanCount_spec (sel : Bool) (s e : GPoint) (bMinX clipMaxX : Int) :
    ∀ (text : List Char) (advs : List Int) (pos : GPoint) (endx : Int)
      (r : Nat) (broke sc : Bool) (ex : Int) (p : GPoint),
      scanCount sel s e bMinX clipMaxX text advs pos endx =
        .ok (r, broke, sc, ex, p) →
      p.y = pos.y ∧ (p.x : Int) = pos.x + r ∧ r ≤ advs.length ∧
        (sc = true → broke = true) ∧
        (sel = inSel s e pos → sc = true → 1 ≤ r) := by
  intro text
  induction text with
  | nil =>
    intro advs pos endx r broke sc ex p h
    simp only [scanCount, Except.ok.injEq, Prod.mk.injEq] at h
    obtain ⟨h1, h2, h3, h4, h5⟩ := h
    subst h1; subst h2; subst h3; subst h4; subst h5
    simp
  | cons c text ih =>
    intro advs pos endx r broke sc ex p h
    rw [scanCount.eq_def] at h
    simp only [] at h
    split at h
    · simp only [Except.ok.injEq, Prod.mk.injEq] at h
      obtain ⟨h1, h2, h3, h4, h5⟩ := h
      subst h1; subst h2; subst h3; subst h4; subst h5
      refine ⟨rfl, by simp, by simp, fun _ => rfl, fun hsel hsc => ?_⟩
      rw [hsel] at hsc
      simp [bne] at hsc
    · match advs, h with
      | [], h => exact absurd h (by simp)
      | adv :: advs, h =>
        dsimp only at h
        revert h
        cases hrec : scanCount sel s e bMinX clipMaxX text advs
            { pos with x := pos.x + 1 } (endx + adv) with
        | error msg => intro h; exact absurd h (by simp)
        | ok out =>
          intro h
          obtain ⟨r', broke', sc', ex', p'⟩ := out
          dsimp only at h
          simp only [Except.ok.injEq, Prod.mk.injEq] at h
          obtain ⟨h1, h2, h3, h4, h5⟩ := h
          subst h1; subst h2; subst h3; subst h4; subst h5
          have hs := ih advs { pos with x := pos.x + 1 } (endx + adv)
            r' broke' sc' ex' p' hrec
          refine ⟨hs.1, ?_, ?_, hs.2.2.2.1, fun _ _ => by omega⟩
          · have := hs.2.1
            simp only at this
            push_cast
            omega
          · have := hs.2.2.1
            simp only [List.length_cons]
            omega

/-- What one successful `emit` step does to the iterator: either it moves to
the next line with `pos.X = 0` (leaving the stored layout alone), or — on a
selection flip — it stays on the same line, advances `pos.X` by at least one
rune, and strictly shrinks the remaining layout. -/
theorem emit_spec :
    ∀ (l : SegmentIterator) (nr : NextRet) (l2 : SegmentIterator),
      l.emit = .ok (some nr, l2) →
      l2.Lines = l.Lines ∧
      ((l2.pos = { x := 0, y := l.pos.y + 1 } ∧ l2.layout = l.layout) ∨
        (l2.pos.y = l.pos.y ∧ l.pos.x + 1 ≤ l2.pos.x ∧
          l2.layout.advances.length < l.layout.advances.length)) := by
  intro l nr l2 h
  unfold SegmentIterator.emit at h
  dsimp only at h
  revert h
  cases hscan : scanCount l.inSelection l.StartSel l.EndSel l.line.bounds.min.x
      l.Clip.max.x l.layout.text l.layout.advances l.pos l.off.x with
  | error msg => intro h; exact absurd h (by simp)
  | ok out =>
    obtain ⟨r, broke, sc, ex, p⟩ := out
    intro h
    dsimp only at h
    have hs := scanCount_spec l.inSelection l.StartSel l.EndSel
      l.line.bounds.min.x l.Clip.max.x l.layout.text l.layout.advances
      l.pos l.off.x r broke sc ex p hscan
    by_cases hsc : sc = true
    · simp only [hsc, Bool.not_true, Bool.false_eq_true, if_false,
        Except.ok.injEq, Prod.mk.injEq, Option.some.injEq] at h
      obtain ⟨hnr, hl2⟩ := h
      subst hl2
      refine ⟨rfl, Or.inr ⟨hs.1, ?_, ?_⟩⟩
      · have hr1 : 1 ≤ r := hs.2.2.2.2 rfl hsc
        have := hs.2.1
        simp only []
        omega
      · have hrle : r ≤ l.layout.advances.length := hs.2.2.1
        have hr1 : 1 ≤ r := hs.2.2.2.2 rfl hsc
        simp only [List.length_drop]
        omega
    · have hsc' : sc = false := by revert hsc; cases sc <;> simp
      simp only [hsc', Bool.not_false, if_true, Except.ok.injEq,
        Prod.mk.injEq, Option.some.injEq] at h
      obtain ⟨hnr, hl2⟩ := h
      subst hl2
      exact ⟨rfl, Or.inl ⟨rfl, rfl⟩⟩

/-- Any strict advance of `pos.Y` (from a position still inside the Lines
slice) shrinks the dominant measure, whatever happens to `pos.X`. -/
theorem measureA_lt_of_y_gt (l l2 : SegmentIterator)
    (hL : l2.Lines = l.Lines) (hy : l.pos.y < l2.pos.y)
    (hlen : l.pos.y < (l.Lines.length : Int)) :
    l2.measureA < l.measureA := by
  unfold SegmentIterator.measureA
  rw [hL]
  split_ifs <;> omega

/-- Every call of `Next` that returns `ok = true` strictly decreases the
lexicographic measure `(measureA, measureB)`. -/
theorem next_decreases_aux :
    ∀ (μ : Nat) (l : SegmentIterator) (nr : NextRet) (l2 : SegmentIterator),
      ((l.Lines.length : Int) - l.pos.y).toNat = μ →
      l.next = .ok (some nr, l2) →
      l2.measureA < l.measureA ∨
        (l2.measureA = l.measureA ∧ l2.measureB < l.measureB) := by
  intro μ
  induction μ using Nat.strong_induction_on with
  | _ μ ih =>
    intro l nr l2 hμ h
    rw [SegmentIterator.next] at h
    by_cases hY : l.pos.y < (l.Lines.length : Int)
    case neg =>
      rw [dif_neg hY] at h
      exact absurd h (by simp)
    case pos =>
      rw [dif_pos hY] at h
      by_cases hx : l.pos.x = 0
      case neg =>
        rw [if_neg hx] at h
        obtain ⟨hL, hcase⟩ := emit_spec l nr l2 h
        rcases hcase with ⟨hpos, hlay⟩ | ⟨hy2, hx2, hlen2⟩
        · refine Or.inl (measureA_lt_of_y_gt l l2 hL ?_ hY)
          rw [hpos]
          dsimp only
          omega
        · unfold SegmentIterator.measureA SegmentIterator.measureB
          rw [hL, hy2]
          split_ifs <;> omega
      case pos =>
        rw [if_pos hx] at h
        by_cases hyneg : l.pos.y < 0
        · rw [if_pos hyneg] at h
          exact absurd h (by simp)
        · rw [if_neg hyneg] at h
          dsimp only at h
          revert h
          cases halign : align l.Alignment
              (l.Lines.getD l.pos.y.toNat emptyLine).width l.Width with
          | error msg => intro h; exact absurd h (by simp)
          | ok a =>
            intro h
            dsimp only at h
            split at h
            · exact absurd h (by simp)
            · split at h
              · -- the continue: a line wholly before the clip area
                have hdec := ih _ (by dsimp only; omega) _ nr l2 rfl h
                refine Or.inl ?_
                rcases hdec with h1 | ⟨h1, h2⟩
                · refine lt_trans h1 (measureA_lt_of_y_gt l _ rfl ?_ hY)
                  dsimp only
                  omega
                · rw [h1]
                  refine measureA_lt_of_y_gt l _ rfl ?_ hY
                  dsimp only
                  omega
              · -- a segment of this line is emitted
                obtain ⟨hL, hcase⟩ := emit_spec _ nr l2 h
                rcases hcase with ⟨hpos, hlay⟩ | ⟨hy2, hx2, hlen2⟩
                · refine Or.inl (measureA_lt_of_y_gt l l2 hL ?_ hY)
                  rw [hpos]
                  dsimp only
                  omega
                · have hskip := le_trans
                    (add_le_add_right (skipRunes_posX_le _ _ _ _ _ _ _) 1) hx2
                  dsimp only at hy2 hskip
                  refine Or.inl ?_
                  unfold SegmentIterator.measureA
                  rw [hL, hy2]
                  dsimp only
                  split_ifs <;> omega

/-- Iterating `Next` always stops: well-founded descent along
`(measureA, measureB)`. -/
theorem next_stops :
    ∀ l : SegmentIterator, ∃ n, SegmentIterator.stopsWithin n l = true := by
  suffices H : ∀ a b (l : SegmentIterator), l.measureA = a → l.measureB = b →
      ∃ n, SegmentIterator.stopsWithin n l = true by
    intro l
    exact H l.measureA l.measureB l rfl rfl
  intro a
  induction a using Nat.strong_induction_on with
  | _ a ihA =>
    intro b
    induction b using Nat.strong_induction_on with
    | _ b ihB =>
      intro l hA hB
      cases hnext : l.next with
      | error msg => exact ⟨1, by simp [SegmentIterator.stopsWithin, hnext]⟩
      | ok pr =>
        obtain ⟨o, l2⟩ := pr
        cases o with
        | none => exact ⟨1, by simp [SegmentIterator.stopsWithin, hnext]⟩
        | some nr =>
          rcases next_decreases_aux (((l.Lines.length : Int) - l.pos.y).toNat)
              l nr l2 rfl hnext with h1 | ⟨h1, h2⟩
          · obtain ⟨n, hn⟩ := ihA l2.measureA (hA ▸ h1) l2.measureB l2 rfl rfl
            exact ⟨n + 1, by simp [SegmentIterator.stopsWithin, hnext, hn]⟩
          · obtain ⟨n, hn⟩ := ihB l2.measureB (hB ▸ h2) l2 (h1.trans hA) rfl
            exact ⟨n + 1, by simp [SegmentIterator.stopsWithin, hnext, hn]⟩

/-- C3: line-layout iteration terminates.  Every `Next` call that returns
`ok = true` strictly advances the iterator — it decreases the lexicographic
measure `(measureA, measureB)` built from the lines not yet finished and the
runes left in the current line's remaining layout — and consequently,
starting from any iterator state over a finite `Lines` slice, repeated calls
to `Next` reach `ok = false` (or a panic of the embedded index/alignment
checks) after finitely many calls. -/
theorem segmentIterator_next_terminates :
    (∀ (l : SegmentIterator) (nr : NextRet) (l2 : SegmentIterator),
        l.next = .ok (some nr, l2) →
        l2.measureA < l.measureA ∨
          (l2.measureA = l.measureA ∧ l2.measureB < l.measureB)) ∧
    (∀ l : SegmentIterator, ∃ n, SegmentIterator.stopsWithin n l = true) :=
  ⟨fun l nr l2 h =>
    next_decreases_aux (((l.Lines.length : Int) - l.pos.y).toNat) l nr l2 rfl h,
    next_stops⟩

end GioMirror
